import Mathlib

/-!
# Digital clock (`main.c`)

A shallow embedding of the single function `main` of `main.c` as a small-step
machine over the statements of the function, together with the parts of the C
library that the function calls (`printf` with the `%d` conversion, `time`,
`localtime`, `Sleep`), and the properties of the program proved over that
machine.

The host is a parameter: at each iteration it supplies what the clock reports
and the local-time conversion in effect.  Output and the other calls made to
the host are recorded, in order, in the `trace` of the machine state.
-/

namespace Clock

/-! ## The C library as used by `main` -/

/-- Character of the decimal digit `d`, the C expression `'0' + d`. -/
def digitChar (d : Nat) : Char := Char.ofNat (48 + d)

/-- Decimal digits of a natural number, most significant first: the digits of
`n / 10` followed by the digit `n % 10`, a single digit when `n < 10`.  The
first argument bounds the recursion depth; `n` itself is always enough. -/
def decDigits : Nat → Nat → List Char
  | 0, n => [digitChar (n % 10)]
  | fuel + 1, n =>
    if n < 10 then [digitChar n]
    else decDigits fuel (n / 10) ++ [digitChar (n % 10)]

/-- The `%d` conversion of `printf` with no flags, width or precision: the
argument in the style `[-]dddd`, with as many digits as the value needs and at
least one. -/
def convD (v : Int) : List Char :=
  if v < 0 then '-' :: decDigits v.natAbs v.natAbs else decDigits v.natAbs v.natAbs

/-- The text `printf` produces for a format and its `int` arguments.  Ordinary
characters are copied; `%d` consumes one argument.  Any other use of `%`, or a
`%d` with no argument left, is undefined behaviour (`none`). -/
def vformat : List Char → List Int → Option (List Char)
  | [], _ => some []
  | c :: rest, args =>
    if c = '%' then
      match rest, args with
      | d :: rest2, a :: args2 =>
        if d = 'd' then (vformat rest2 args2).map (convD a ++ ·) else none
      | _, _ => none
    else (vformat rest args).map (c :: ·)

/-- The members of `struct tm` that `main` reads; each is a C `int`. -/
structure Tm where
  tm_hour : Int
  tm_min : Int
  tm_sec : Int
deriving DecidableEq, Repr

/-- What the host offers during one iteration of the loop: `clock` is what the
system clock reports when `time` is called (`none` when the calendar time is
not available), `localtime` is the conversion to local calendar fields then in
effect (`none` stands for the null pointer that `localtime` returns when it
cannot convert). -/
structure Host where
  clock : Option Int
  localtime : Int → Option Tm

/-- The library function `time` called with a non-null argument: the value it
returns, which it also stores through the argument.  When the calendar time is
not available that value is `(time_t)(-1)`. -/
def time (h : Host) : Int :=
  match h.clock with
  | some t => t
  | none => -1

/-- Calls that `main` makes to the outside, as recorded in the trace. -/
inductive Effect where
  /-- Call `time(&rawtime)`, with the value stored into `rawtime`. -/
  | timeCall (stored : Int)
  /-- Call `localtime(&rawtime)`, with the value of `rawtime` passed. -/
  | localtimeCall (arg : Int)
  /-- Call `printf(...)`, with the text written to standard output. -/
  | printfCall (text : List Char)
  /-- Call `Sleep(dwMilliseconds)`, with the number of milliseconds requested. -/
  | sleepCall (dwMilliseconds : Nat)
deriving DecidableEq, Repr

/-- Standard output of a trace: the texts of its `printf` calls, in order. -/
def stdoutOf : List Effect → List Char
  | [] => []
  | Effect.printfCall text :: es => text ++ stdoutOf es
  | _ :: es => stdoutOf es

/-! ## The function `main` -/

/-- Statements of `main`, used as program counter. -/
inductive Loc where
  /-- Line 15: `printf("DIGITAL CLOCK\n");` -/
  | printBanner
  /-- Line 17: `while (isRunning)` -/
  | whileTest
  /-- Line 19: `time (&rawtime);` -/
  | callTime
  /-- Line 20: `pTime = localtime(&rawtime);` -/
  | callLocaltime
  /-- Line 21: `printf("%d:%d:%d\n", pTime->tm_hour, pTime->tm_min, pTime->tm_sec);` -/
  | printTime
  /-- Line 23: `Sleep(1);` -/
  | callSleep
  /-- Line 26: `return 0;` -/
  | returnStmt
deriving DecidableEq, Repr

/-- Local variables of `main`, the program counter and the trace so far.
`pTime` is `none` for the null pointer and otherwise holds the fields of
the structure it points to. -/
structure State where
  pc : Loc
  rawtime : Int
  pTime : Option Tm
  isRunning : Bool
  trace : List Effect
deriving DecidableEq, Repr

/-- Behaviour for which the C standard imposes no requirement. -/
inductive Undefined where
  /-- Member access through a null pointer. -/
  | nullDeref
  /-- A `printf` format that does not match its arguments. -/
  | badFormat
deriving DecidableEq, Repr

/-- Result of executing one statement. -/
inductive Outcome where
  /-- Execution continues in the given state. -/
  | running (s : State)
  /-- The function `main` returned the given value. -/
  | returned (code : Int)
  /-- The statement has undefined behaviour. -/
  | undefined (u : Undefined)
deriving DecidableEq, Repr

/-- State on entry to the first statement, after the initialisers of lines
11 to 13: `rawtime = 0`, `pTime = NULL`, `isRunning = true`. -/
def start : State :=
  { pc := Loc.printBanner, rawtime := 0, pTime := none, isRunning := true, trace := [] }

/-- Format string of line 15. -/
def bannerFormat : List Char := "DIGITAL CLOCK\n".toList

/-- Format string of line 21. -/
def timeFormat : List Char := "%d:%d:%d\n".toList

/-- One statement of `main`. -/
def step (h : Host) (s : State) : Outcome :=
  match s.pc with
  | Loc.printBanner =>
    match vformat bannerFormat [] with
    | some text =>
      Outcome.running { s with pc := Loc.whileTest, trace := s.trace ++ [Effect.printfCall text] }
    | none => Outcome.undefined Undefined.badFormat
  | Loc.whileTest =>
    if s.isRunning then Outcome.running { s with pc := Loc.callTime }
    else Outcome.running { s with pc := Loc.returnStmt }
  | Loc.callTime =>
    Outcome.running
      { s with pc := Loc.callLocaltime, rawtime := time h,
               trace := s.trace ++ [Effect.timeCall (time h)] }
  | Loc.callLocaltime =>
    Outcome.running
      { s with pc := Loc.printTime, pTime := h.localtime s.rawtime,
               trace := s.trace ++ [Effect.localtimeCall s.rawtime] }
  | Loc.printTime =>
    match s.pTime with
    | none => Outcome.undefined Undefined.nullDeref
    | some tm =>
      match vformat timeFormat [tm.tm_hour, tm.tm_min, tm.tm_sec] with
      | some text =>
        Outcome.running { s with pc := Loc.callSleep, trace := s.trace ++ [Effect.printfCall text] }
      | none => Outcome.undefined Undefined.badFormat
  | Loc.callSleep =>
    Outcome.running { s with pc := Loc.whileTest, trace := s.trace ++ [Effect.sleepCall 1] }
  | Loc.returnStmt => Outcome.returned 0

/-- Executes `n` statements under one host, stopping early when `main` returns
or the behaviour becomes undefined. -/
def exec (h : Host) : Nat → State → Outcome
  | 0, s => Outcome.running s
  | n + 1, s =>
    match step h s with
    | Outcome.running s2 => exec h n s2
    | o => o

/-- One pass through the loop from the loop test: the test and the four
statements of the body. -/
def iteration (h : Host) (s : State) : Outcome := exec h 5 s

/-- Successive passes through the loop, one host per pass. -/
def iterations : List Host → State → Outcome
  | [], s => Outcome.running s
  | h :: hs, s =>
    match iteration h s with
    | Outcome.running s2 => iterations hs s2
    | o => o

/-- The program from its first statement: the banner under host `h0`, then one
pass through the loop for each host of `hs`. -/
def main (h0 : Host) (hs : List Host) : Outcome :=
  match step h0 start with
  | Outcome.running s => iterations hs s
  | o => o

/-- States that `main` can get to from the state `s0` by executing statements,
whatever the host does at each of them. -/
inductive ReachableFrom (s0 : State) : State → Prop where
  | refl : ReachableFrom s0 s0
  | step {s s2 : State} (h : Host) :
    ReachableFrom s0 s → step h s = Outcome.running s2 → ReachableFrom s0 s2

/-- The local calendar fields of an iteration under host `h`: the conversion
of the instant that `time` stored. -/
def fieldsOf (h : Host) : Option Tm := h.localtime (time h)

/-- The characters `printf` writes at line 21 for the fields `tm`. -/
def timeLine (tm : Tm) : List Char :=
  convD tm.tm_hour ++ ':' :: (convD tm.tm_min ++ ':' :: (convD tm.tm_sec ++ ['\n']))

/-- The effects of one pass through the loop under host `h` when the
conversion yields `tm`. -/
def passEffects (h : Host) (tm : Tm) : List Effect :=
  [Effect.timeCall (time h), Effect.localtimeCall (time h),
    Effect.printfCall (timeLine tm), Effect.sleepCall 1]

/-- State on entry to the loop for the first time: the banner has been
printed and the loop test is next. -/
def loopEntry : State :=
  { start with pc := Loc.whileTest, trace := [Effect.printfCall bannerFormat] }

/-- An example host in the UTC time zone whose conversion accepts every
instant, instants before 1970 included. -/
def utcHost (clock : Option Int) : Host :=
  { clock := clock,
    localtime := fun t => some
      { tm_hour := t % 86400 / 3600, tm_min := t % 3600 / 60, tm_sec := t % 60 } }

/-- An example host in the UTC time zone whose conversion returns a null
pointer for instants before 1970, as the Microsoft C runtime does. -/
def strictHost (clock : Option Int) : Host :=
  { clock := clock,
    localtime := fun t => if t < 0 then none else (utcHost clock).localtime t }

/-! ## Vocabulary of the specification -/

/-- Plain base-10 rendering of an integer. -/
def decimal (v : Int) : String := toString v

/-- The line for the fields `tm` as the specification words it. -/
def lineOf (tm : Tm) : String :=
  decimal tm.tm_hour ++ ":" ++ decimal tm.tm_min ++ ":" ++ decimal tm.tm_sec ++ "\n"

/-- The banner line. -/
def banner : String := "DIGITAL CLOCK\n"

/-- Reads a non-empty string of decimal digits as a number. -/
def parseDec (cs : List Char) : Option Nat :=
  if cs ≠ [] ∧ cs.all Char.isDigit = true then
    some (cs.foldl (fun a c => 10 * a + (c.toNat - 48)) 0)
  else none

/-- Fields within the bounds of a time of day. -/
def InRange (tm : Tm) : Prop :=
  0 ≤ tm.tm_hour ∧ tm.tm_hour ≤ 23 ∧ 0 ≤ tm.tm_min ∧ tm.tm_min ≤ 59 ∧
    0 ≤ tm.tm_sec ∧ tm.tm_sec ≤ 59

instance (tm : Tm) : Decidable (InRange tm) := by
  unfold InRange
  infer_instance

/-! ## Lemmas on the `%d` conversion -/

theorem digitChar_isDigit {d : Nat} (hd : d < 10) : (digitChar d).isDigit = true := by
  interval_cases d <;> decide

theorem digitChar_ne_colon {d : Nat} (hd : d < 10) : digitChar d ≠ ':' := by
  interval_cases d <;> decide

theorem digitChar_value {d : Nat} (hd : d < 10) : (digitChar d).toNat - 48 = d := by
  interval_cases d <;> decide

theorem digitChar_eq_core {d : Nat} (hd : d < 10) : Nat.digitChar d = digitChar d := by
  interval_cases d <;> decide

theorem decDigits_fuel : ∀ (f g n : Nat), n ≤ f → n ≤ g → decDigits f n = decDigits g n := by
  intro f
  induction f with
  | zero =>
    intro g n hf hg
    have hn : n = 0 := by omega
    subst hn
    cases g <;> simp [decDigits]
  | succ f ih =>
    intro g n hf hg
    by_cases hlt : n < 10
    · cases g with
      | zero =>
        have hn : n = 0 := by omega
        subst hn
        simp [decDigits]
      | succ g => simp [decDigits, hlt]
    · cases g with
      | zero => omega
      | succ g =>
        simp only [decDigits, hlt, if_false]
        rw [ih g (n / 10) (by omega) (by omega)]

theorem decDigits_small {n : Nat} (hn : n < 10) : decDigits n n = [digitChar n] := by
  cases n with
  | zero => simp [decDigits]
  | succ n => simp [decDigits, hn]

theorem decDigits_large {n : Nat} (hn : 10 ≤ n) :
    decDigits n n = decDigits (n / 10) (n / 10) ++ [digitChar (n % 10)] := by
  cases n with
  | zero => omega
  | succ n =>
    have hlt : ¬ (n + 1 < 10) := by omega
    simp only [decDigits, hlt, if_false]
    rw [decDigits_fuel n ((n + 1) / 10) ((n + 1) / 10) (by omega) (le_refl _)]

theorem toDigitsCore_eq : ∀ (fuel n : Nat) (acc : List Char), n < fuel →
    Nat.toDigitsCore 10 fuel n acc = decDigits n n ++ acc := by
  intro fuel
  induction fuel with
  | zero => intro n acc h; omega
  | succ fuel ih =>
    intro n acc h
    by_cases hlt : n < 10
    · have h0 : n / 10 = 0 := by omega
      have hm : n % 10 = n := by omega
      simp [Nat.toDigitsCore, h0, hm, decDigits_small hlt, digitChar_eq_core hlt]
    · have h0 : ¬ (n / 10 = 0) := by omega
      have hd : n % 10 < 10 := by omega
      simp only [Nat.toDigitsCore, h0, if_false]
      rw [ih (n / 10) _ (by omega), @decDigits_large n (by omega), digitChar_eq_core hd]
      simp

theorem toDigits_eq (n : Nat) : Nat.toDigits 10 n = decDigits n n := by
  simp [Nat.toDigits, toDigitsCore_eq (n + 1) n [] (by omega)]

theorem convD_eq_decimal (v : Int) : String.mk (convD v) = decimal v := by
  cases v with
  | ofNat m =>
    have h : ¬ ((Int.ofNat m) < 0) := by simp
    simp only [convD, h, if_false, decimal, toString, Nat.repr, toDigits_eq, List.asString]
    rfl
  | negSucc m =>
    have h : (Int.negSucc m) < 0 := Int.negSucc_lt_zero m
    simp only [convD, h, if_true, decimal, toString, Nat.repr, toDigits_eq, List.asString,
      Int.natAbs_negSucc]
    rfl

theorem vformat_timeFormat (tm : Tm) :
    vformat timeFormat [tm.tm_hour, tm.tm_min, tm.tm_sec] = some (timeLine tm) := by
  simp [vformat, timeFormat, timeLine]

theorem vformat_bannerFormat : vformat bannerFormat [] = some banner.toList := by
  decide

theorem timeLine_eq_lineOf (tm : Tm) : String.mk (timeLine tm) = lineOf tm := by
  simp only [lineOf, ← convD_eq_decimal, timeLine]
  apply String.ext
  simp [String.data_append]

/-! ## Lemmas on the statements of `main` -/

theorem stdoutOf_append (xs ys : List Effect) :
    stdoutOf (xs ++ ys) = stdoutOf xs ++ stdoutOf ys := by
  induction xs with
  | nil => rfl
  | cons e es ih => cases e <;> simp [stdoutOf, ih]

theorem iteration_some (h : Host) (s : State) (tm : Tm) (hpc : s.pc = Loc.whileTest)
    (hrun : s.isRunning = true) (hconv : fieldsOf h = some tm) :
    iteration h s = Outcome.running
      { s with rawtime := time h, pTime := some tm, trace := s.trace ++ passEffects h tm } := by
  obtain ⟨pc, rawtime, pTime, isRunning, trace⟩ := s
  simp only at hpc hrun
  subst hpc hrun
  unfold fieldsOf at hconv
  simp [iteration, exec, step, hconv, vformat_timeFormat, passEffects]

theorem iteration_none (h : Host) (s : State) (hpc : s.pc = Loc.whileTest)
    (hrun : s.isRunning = true) (hconv : fieldsOf h = none) :
    iteration h s = Outcome.undefined Undefined.nullDeref := by
  obtain ⟨pc, rawtime, pTime, isRunning, trace⟩ := s
  simp only at hpc hrun
  subst hpc hrun
  unfold fieldsOf at hconv
  simp [iteration, exec, step, hconv]

theorem step_keeps_isRunning (h : Host) (s s2 : State) (hs : step h s = Outcome.running s2) :
    s2.isRunning = s.isRunning := by
  obtain ⟨pc, rawtime, pTime, isRunning, trace⟩ := s
  cases pc <;> simp only [step] at hs
  · split at hs
    · cases hs; rfl
    · cases hs
  · split at hs <;> (cases hs; rfl)
  · cases hs; rfl
  · cases hs; rfl
  · split at hs
    · cases hs
    · split at hs
      · cases hs; rfl
      · cases hs
  · cases hs; rfl
  · cases hs

theorem step_returned (h : Host) (s : State) (c : Int) (hs : step h s = Outcome.returned c) :
    s.pc = Loc.returnStmt ∧ c = 0 := by
  obtain ⟨pc, rawtime, pTime, isRunning, trace⟩ := s
  cases pc <;> simp only [step] at hs
  · split at hs <;> cases hs
  · split at hs <;> cases hs
  · cases hs
  · cases hs
  · split at hs
    · cases hs
    · split at hs <;> cases hs
  · cases hs
  · cases hs; exact ⟨rfl, rfl⟩

theorem step_pc_returnStmt (h : Host) (s s2 : State) (hs : step h s = Outcome.running s2)
    (hpc : s2.pc = Loc.returnStmt) : s.pc = Loc.whileTest ∧ s.isRunning = false := by
  obtain ⟨pc, rawtime, pTime, isRunning, trace⟩ := s
  cases pc <;> simp only [step] at hs
  · split at hs
    · cases hs; cases hpc
    · cases hs
  · cases isRunning
    · exact ⟨rfl, rfl⟩
    · simp at hs; subst hs; cases hpc
  · cases hs; cases hpc
  · cases hs; cases hpc
  · split at hs
    · cases hs
    · split at hs
      · cases hs; cases hpc
      · cases hs
  · cases hs; cases hpc
  · cases hs

/-! ## Lemmas on rendered lines -/

theorem isDigit_ne_colon {c : Char} (hc : c.isDigit = true) : c ≠ ':' := by
  intro h
  subst h
  revert hc
  decide

theorem isDigit_ne_newline {c : Char} (hc : c.isDigit = true) : c ≠ '\n' := by
  intro h
  subst h
  revert hc
  decide

theorem decDigits_spec (n : Nat) :
    decDigits n n ≠ [] ∧ (∀ c ∈ decDigits n n, c.isDigit = true) ∧
      (decDigits n n).foldl (fun a c => 10 * a + (c.toNat - 48)) 0 = n := by
  induction n using Nat.strong_induction_on with
  | _ n ih =>
    by_cases hlt : n < 10
    · rw [decDigits_small hlt]
      refine ⟨by simp, ?_, ?_⟩
      · intro c hc
        simp only [List.mem_singleton] at hc
        subst hc
        exact digitChar_isDigit hlt
      · simp [digitChar_value hlt]
    · have hd : n % 10 < 10 := by omega
      obtain ⟨-, h2, h3⟩ := ih (n / 10) (by omega)
      rw [decDigits_large (by omega)]
      refine ⟨by simp, ?_, ?_⟩
      · intro c hc
        rcases List.mem_append.mp hc with hc | hc
        · exact h2 c hc
        · simp only [List.mem_singleton] at hc
          subst hc
          exact digitChar_isDigit hd
      · rw [List.foldl_append, h3]
        simp only [List.foldl_cons, List.foldl_nil, digitChar_value hd]
        omega

theorem convD_nonneg {v : Int} (hv : 0 ≤ v) : convD v = decDigits v.toNat v.toNat := by
  have h : ¬ (v < 0) := by omega
  have e : v.natAbs = v.toNat := by omega
  simp [convD, h, e]

theorem convD_nonneg_spec {v : Int} (hv : 0 ≤ v) :
    convD v ≠ [] ∧ (∀ c ∈ convD v, c.isDigit = true) ∧ ':' ∉ convD v ∧
      parseDec (convD v) = some v.toNat := by
  obtain ⟨h1, h2, h3⟩ := decDigits_spec v.toNat
  rw [convD_nonneg hv]
  refine ⟨h1, h2, fun hmem => isDigit_ne_colon (h2 _ hmem) rfl, ?_⟩
  have hall : (decDigits v.toNat v.toNat).all Char.isDigit = true := by
    simpa [List.all_eq_true] using h2
  simp [parseDec, h1, hall, h3]

theorem convD_no_newline (v : Int) : '\n' ∉ convD v := by
  intro hmem
  have hd : ∀ c ∈ decDigits v.natAbs v.natAbs, c ≠ '\n' :=
    fun c hc => isDigit_ne_newline ((decDigits_spec v.natAbs).2.1 c hc)
  unfold convD at hmem
  split at hmem
  · rcases List.mem_cons.mp hmem with h | h
    · revert h; decide
    · exact hd _ h rfl
  · exact hd _ hmem rfl

theorem timeLine_dropLast (tm : Tm) :
    (timeLine tm).dropLast = [':'].intercalate [convD tm.tm_hour, convD tm.tm_min, convD tm.tm_sec] := by
  have e : timeLine tm =
      (convD tm.tm_hour ++ ':' :: (convD tm.tm_min ++ ':' :: convD tm.tm_sec)) ++ ['\n'] := by
    simp [timeLine]
  rw [e, List.dropLast_concat]
  simp [List.intercalate]

theorem timeLine_count_newline (tm : Tm) : (timeLine tm).count '\n' = 1 := by
  have h1 := List.count_eq_zero_of_not_mem (convD_no_newline tm.tm_hour)
  have h2 := List.count_eq_zero_of_not_mem (convD_no_newline tm.tm_min)
  have h3 := List.count_eq_zero_of_not_mem (convD_no_newline tm.tm_sec)
  simp [timeLine, List.count_append, List.count_cons, h1, h2, h3]

/-! ## Properties of the program -/

/-- C1: in an iteration whose conversion yields the fields `tm`, the text the
iteration adds to standard output is exactly the decimal rendering of the hour,
a colon, the decimal rendering of the minute, a colon, the decimal rendering of
the second and a newline, with no padding and no spaces. -/
theorem time_line_is_decimal_fields (h : Host) (s : State) (tm : Tm)
    (hpc : s.pc = Loc.whileTest) (hrun : s.isRunning = true) (hconv : fieldsOf h = some tm) :
    ∃ s2 text, iteration h s = Outcome.running s2 ∧
      stdoutOf s2.trace = stdoutOf s.trace ++ text ∧
      String.mk text =
        decimal tm.tm_hour ++ ":" ++ decimal tm.tm_min ++ ":" ++ decimal tm.tm_sec ++ "\n" := by
  refine ⟨_, timeLine tm, iteration_some h s tm hpc hrun hconv, ?_, ?_⟩
  · simp [stdoutOf_append, passEffects, stdoutOf]
  · exact timeLine_eq_lineOf tm

/-- Witness of C1 at the fields (9,5,3), (23,59,59) and (0,0,0), which give
the lines "9:5:3", "23:59:59" and "0:0:0". -/
theorem time_line_is_decimal_fields_witness :
    (∃ s2 text, iteration (utcHost (some 32703)) loopEntry = Outcome.running s2 ∧
      stdoutOf s2.trace = stdoutOf loopEntry.trace ++ text ∧ String.mk text = "9:5:3\n") ∧
    (∃ s2 text, iteration (utcHost (some 86399)) loopEntry = Outcome.running s2 ∧
      stdoutOf s2.trace = stdoutOf loopEntry.trace ++ text ∧ String.mk text = "23:59:59\n") ∧
    (∃ s2 text, iteration (utcHost (some 86400)) loopEntry = Outcome.running s2 ∧
      stdoutOf s2.trace = stdoutOf loopEntry.trace ++ text ∧ String.mk text = "0:0:0\n") := by
  refine ⟨?_, ?_, ?_⟩
  · obtain ⟨s2, text, h1, h2, h3⟩ := time_line_is_decimal_fields (utcHost (some 32703))
      loopEntry ⟨9, 5, 3⟩ rfl rfl (by decide)
    exact ⟨s2, text, h1, h2, h3.trans (by decide)⟩
  · obtain ⟨s2, text, h1, h2, h3⟩ := time_line_is_decimal_fields (utcHost (some 86399))
      loopEntry ⟨23, 59, 59⟩ rfl rfl (by decide)
    exact ⟨s2, text, h1, h2, h3.trans (by decide)⟩
  · obtain ⟨s2, text, h1, h2, h3⟩ := time_line_is_decimal_fields (utcHost (some 86400))
      loopEntry ⟨0, 0, 0⟩ rfl rfl (by decide)
    exact ⟨s2, text, h1, h2, h3.trans (by decide)⟩

/-- C2: the statement of line 23 asks `Sleep` for 1 millisecond, in every
state and under every host; the request is not one of 1000 milliseconds. -/
theorem sleep_request_is_one_millisecond (h : Host) (s : State) :
    step h { s with pc := Loc.callSleep } =
        Outcome.running { s with pc := Loc.whileTest, trace := s.trace ++ [Effect.sleepCall 1] } ∧
      Effect.sleepCall 1 ≠ Effect.sleepCall 1000 := by
  refine ⟨rfl, ?_⟩
  intro hne
  cases hne

theorem convD_chars (v : Int) : ∀ c ∈ convD v, c.isDigit = true ∨ c = '-' := by
  intro c hmem
  have hd : ∀ x ∈ decDigits v.natAbs v.natAbs, x.isDigit = true := (decDigits_spec v.natAbs).2.1
  unfold convD at hmem
  split at hmem
  · rcases List.mem_cons.mp hmem with h | h
    · exact Or.inr h
    · exact Or.inl (hd _ h)
  · exact Or.inl (hd _ hmem)

theorem timeLine_ne_banner (tm : Tm) : timeLine tm ≠ banner.toList := by
  intro h
  have hmem : 'D' ∈ timeLine tm := by
    rw [h]
    decide
  have hD : ∀ v : Int, 'D' ∉ convD v := by
    intro v hv
    rcases convD_chars v _ hv with k | k
    · revert k; decide
    · revert k; decide
  simp only [timeLine, List.mem_append, List.mem_cons, List.mem_singleton,
    List.not_mem_nil, or_false] at hmem
  rcases hmem with k | k | k | k | k | k
  · exact hD _ k
  · revert k; decide
  · exact hD _ k
  · revert k; decide
  · exact hD _ k
  · revert k; decide

/-! ## Lemmas on runs -/

theorem step_start (h0 : Host) : step h0 start = Outcome.running loopEntry := by
  rfl

theorem lineOf_toList (tm : Tm) : (lineOf tm).toList = timeLine tm := by
  rw [← timeLine_eq_lineOf]
  rfl

theorem iterations_trace : ∀ (hs : List Host) (fs : List Tm) (s : State),
    s.pc = Loc.whileTest → s.isRunning = true → hs.map fieldsOf = fs.map some →
    ∃ s2, iterations hs s = Outcome.running s2 ∧ s2.pc = Loc.whileTest ∧
      s2.isRunning = true ∧
      stdoutOf s2.trace = stdoutOf s.trace ++ (fs.map timeLine).flatten ∧
      s2.trace.count (Effect.printfCall banner.toList) =
        s.trace.count (Effect.printfCall banner.toList) := by
  intro hs
  induction hs with
  | nil =>
    intro fs s hpc hrun hmap
    cases fs with
    | nil => exact ⟨s, rfl, hpc, hrun, by simp, by simp⟩
    | cons tm fs => simp at hmap
  | cons h hs ih =>
    intro fs s hpc hrun hmap
    cases fs with
    | nil => simp at hmap
    | cons tm fs =>
      simp only [List.map_cons, List.cons.injEq] at hmap
      obtain ⟨hh, ht⟩ := hmap
      obtain ⟨s2, e1, e2, e3, e4, e5⟩ := ih fs
        { s with rawtime := time h, pTime := some tm, trace := s.trace ++ passEffects h tm }
        hpc hrun ht
      refine ⟨s2, ?_, e2, e3, ?_, ?_⟩
      · simp only [iterations, iteration_some h s tm hpc hrun hh]
        exact e1
      · rw [e4]
        simp [stdoutOf_append, passEffects, stdoutOf]
      · rw [e5]
        have hne : timeLine tm ≠ banner.toList := timeLine_ne_banner tm
        have hne2 : ¬ timeLine tm = banner.data := hne
        simp [passEffects, List.count_cons, hne2]

theorem count_newline_lines (fs : List Tm) :
    ((fs.map timeLine).flatten).count '\n' = fs.length := by
  induction fs with
  | nil => rfl
  | cons tm fs ih =>
    simp only [List.map_cons, List.flatten_cons, List.count_append, ih, timeLine_count_newline,
      List.length_cons]
    omega

theorem reachable_invariant (s0 s : State) (h0 : s0.isRunning = true)
    (hpc : s0.pc ≠ Loc.returnStmt) (hr : ReachableFrom s0 s) :
    s.isRunning = true ∧ s.pc ≠ Loc.returnStmt := by
  induction hr with
  | refl => exact ⟨h0, hpc⟩
  | step h _ hs ih =>
    obtain ⟨i1, _⟩ := ih
    have k := step_keeps_isRunning h _ _ hs
    refine ⟨k.trans i1, ?_⟩
    intro hret
    have := (step_pc_returnStmt h _ _ hs hret).2
    rw [i1] at this
    cases this

theorem exec_returned (h : Host) : ∀ (n : Nat) (s : State) (c : Int),
    exec h n s = Outcome.returned c → c = 0 := by
  intro n
  induction n with
  | zero => intro s c hc; cases hc
  | succ n ih =>
    intro s c hc
    simp only [exec] at hc
    split at hc
    · exact ih _ _ hc
    · rename_i o hne
      exact (step_returned h s c hc).2

/-! ## Properties of the program, continued -/

/-- C3: after `n` completed iterations, each with a successful conversion, the
standard output of the run is the banner line followed by exactly the `n` time
lines of the iterations, in order: `n + 1` lines in all, the banner first, and
the banner is printed by exactly one call. -/
theorem stdout_is_banner_then_lines (h0 : Host) (hs : List Host) (fs : List Tm)
    (hconv : hs.map fieldsOf = fs.map some) :
    ∃ s, main h0 hs = Outcome.running s ∧
      stdoutOf s.trace = banner.toList ++ (fs.map fun tm => (lineOf tm).toList).flatten ∧
      (stdoutOf s.trace).count '\n' = hs.length + 1 ∧ fs.length = hs.length ∧
      s.trace.count (Effect.printfCall banner.toList) = 1 := by
  have hlen : fs.length = hs.length := by
    have := congrArg List.length hconv
    simpa using this.symm
  obtain ⟨s, e1, -, -, e4, e5⟩ := iterations_trace hs fs loopEntry rfl rfl hconv
  have hb : stdoutOf loopEntry.trace = banner.toList := by decide
  have hfun : (fun tm => (lineOf tm).toList) = timeLine := funext lineOf_toList
  refine ⟨s, ?_, ?_, ?_, hlen, e5.trans (by decide)⟩
  · simp only [main, step_start]
    exact e1
  · rw [e4, hb, hfun]
  · rw [e4, hb, List.count_append, count_newline_lines, hlen]
    have : banner.toList.count '\n' = 1 := by decide
    omega

/-- Witness of C3 with two iterations, at 23:59:59 and at the next second. -/
theorem stdout_is_banner_then_lines_witness :
    ∃ s, main (utcHost none) [utcHost (some 86399), utcHost (some 86400)] = Outcome.running s ∧
      stdoutOf s.trace = "DIGITAL CLOCK\n23:59:59\n0:0:0\n".toList := by
  obtain ⟨s, h1, h2, -⟩ := stdout_is_banner_then_lines (utcHost none)
    [utcHost (some 86399), utcHost (some 86400)] [⟨23, 59, 59⟩, ⟨0, 0, 0⟩] (by decide)
  exact ⟨s, h1, h2.trans (by decide)⟩

/-- C4: from any state in which `isRunning` is true and that is not at the
return statement, every state reached by executing statements still has
`isRunning` true and is not at the return statement, no statement executed from
it returns from `main`, and no statement changes `isRunning`. -/
theorem loop_has_no_exit (s0 s : State) (h0 : s0.isRunning = true)
    (hpc : s0.pc ≠ Loc.returnStmt) (hr : ReachableFrom s0 s) :
    s.isRunning = true ∧ s.pc ≠ Loc.returnStmt ∧
      (∀ h c, step h s ≠ Outcome.returned c) ∧
      (∀ h s2, step h s = Outcome.running s2 → s2.isRunning = s.isRunning) := by
  obtain ⟨i1, i2⟩ := reachable_invariant s0 s h0 hpc hr
  exact ⟨i1, i2, fun h c hc => i2 (step_returned h s c hc).1,
    fun h s2 hs => step_keeps_isRunning h s s2 hs⟩

/-- Witness of C4 at the state on entry to the loop, reached from the start of
`main` by the banner statement. -/
theorem loop_has_no_exit_witness :
    ReachableFrom start loopEntry ∧ loopEntry.isRunning = true ∧
      loopEntry.pc ≠ Loc.returnStmt ∧ ∀ h c, step h loopEntry ≠ Outcome.returned c :=
  have hr : ReachableFrom start loopEntry :=
    ReachableFrom.step (utcHost none) ReachableFrom.refl (step_start _)
  have k := loop_has_no_exit start loopEntry rfl (by decide) hr
  ⟨hr, k.1, k.2.1, k.2.2.1⟩

/-- C5: under a host whose clock fails and whose conversion rejects the value
`time` then stores, the result of `localtime` is a null pointer, the program
goes on to the `printf` of line 21 with that pointer, and the member access
through it is undefined behaviour; no failure is reported. -/
theorem failed_conversion_is_dereferenced :
    fieldsOf (strictHost none) = none ∧
      exec (strictHost none) 3 loopEntry = Outcome.running
        { pc := Loc.printTime, rawtime := -1, pTime := none, isRunning := true,
          trace := loopEntry.trace ++ [Effect.timeCall (-1), Effect.localtimeCall (-1)] } ∧
      iteration (strictHost none) loopEntry = Outcome.undefined Undefined.nullDeref ∧
      main (strictHost none) [strictHost none] = Outcome.undefined Undefined.nullDeref := by
  refine ⟨by decide, by decide, by decide, by decide⟩

/-- The three colon-separated parts of a rendered line without its newline,
for fields that are not negative. -/
theorem timeLine_split (tm : Tm) (h1 : 0 ≤ tm.tm_hour) (h2 : 0 ≤ tm.tm_min)
    (h3 : 0 ≤ tm.tm_sec) :
    (timeLine tm).dropLast.splitOn ':' = [convD tm.tm_hour, convD tm.tm_min, convD tm.tm_sec] := by
  rw [timeLine_dropLast]
  apply List.splitOn_intercalate
  · intro l hl
    simp only [List.mem_cons, List.mem_singleton, List.not_mem_nil, or_false] at hl
    rcases hl with hl | hl | hl <;> subst hl
    · exact (convD_nonneg_spec h1).2.2.1
    · exact (convD_nonneg_spec h2).2.2.1
    · exact (convD_nonneg_spec h3).2.2.1
  · simp

theorem timeLine_count_colon (tm : Tm) (h1 : 0 ≤ tm.tm_hour) (h2 : 0 ≤ tm.tm_min)
    (h3 : 0 ≤ tm.tm_sec) : (timeLine tm).dropLast.count ':' = 2 := by
  have c1 := List.count_eq_zero_of_not_mem (convD_nonneg_spec h1).2.2.1
  have c2 := List.count_eq_zero_of_not_mem (convD_nonneg_spec h2).2.2.1
  have c3 := List.count_eq_zero_of_not_mem (convD_nonneg_spec h3).2.2.1
  rw [timeLine_dropLast]
  simp [List.intercalate, List.count_append, List.count_cons, c1, c2, c3]

/-- C6: for fields within the bounds of a time of day, the line rendered by
line 21, without its newline, contains exactly two colons and splits on the
colon into exactly three non-empty strings of decimal digits; reading them as
decimal numbers gives back the hour, the minute and the second, each within its
bound; and no other in-range fields render to the same line. -/
theorem rendered_line_round_trips (tm : Tm) (hr : InRange tm) :
    ∃ line, vformat timeFormat [tm.tm_hour, tm.tm_min, tm.tm_sec] = some line ∧
      line = line.dropLast ++ ['\n'] ∧
      line.dropLast.count ':' = 2 ∧
      (∃ a b c : List Char, line.dropLast.splitOn ':' = [a, b, c] ∧
        (∀ part ∈ [a, b, c], part ≠ [] ∧ ∀ x ∈ part, x.isDigit = true) ∧
        ∃ x y z : Nat, parseDec a = some x ∧ parseDec b = some y ∧ parseDec c = some z ∧
          (x : Int) = tm.tm_hour ∧ (y : Int) = tm.tm_min ∧ (z : Int) = tm.tm_sec ∧
          x ≤ 23 ∧ y ≤ 59 ∧ z ≤ 59) ∧
      ∀ tm2, InRange tm2 →
        vformat timeFormat [tm2.tm_hour, tm2.tm_min, tm2.tm_sec] = some line → tm2 = tm := by
  obtain ⟨h1, h1b, h2, h2b, h3, h3b⟩ := hr
  refine ⟨timeLine tm, vformat_timeFormat tm, ?_, timeLine_count_colon tm h1 h2 h3, ?_, ?_⟩
  · have e : timeLine tm =
        (convD tm.tm_hour ++ ':' :: (convD tm.tm_min ++ ':' :: convD tm.tm_sec)) ++ ['\n'] := by
      simp [timeLine]
    rw [e, List.dropLast_concat]
  · refine ⟨_, _, _, timeLine_split tm h1 h2 h3, ?_, tm.tm_hour.toNat, tm.tm_min.toNat,
      tm.tm_sec.toNat, (convD_nonneg_spec h1).2.2.2, (convD_nonneg_spec h2).2.2.2,
      (convD_nonneg_spec h3).2.2.2, ?_⟩
    · intro part hp
      simp only [List.mem_cons, List.mem_singleton, List.not_mem_nil, or_false] at hp
      rcases hp with hp | hp | hp <;> subst hp
      · exact ⟨(convD_nonneg_spec h1).1, (convD_nonneg_spec h1).2.1⟩
      · exact ⟨(convD_nonneg_spec h2).1, (convD_nonneg_spec h2).2.1⟩
      · exact ⟨(convD_nonneg_spec h3).1, (convD_nonneg_spec h3).2.1⟩
    · omega
  · intro tm2 hr2 hv
    obtain ⟨k1, -, k2, -, k3, -⟩ := hr2
    rw [vformat_timeFormat] at hv
    have hl : timeLine tm2 = timeLine tm := Option.some.inj hv
    have hsp := timeLine_split tm2 k1 k2 k3
    rw [hl, timeLine_split tm h1 h2 h3] at hsp
    simp only [List.cons.injEq, and_true] at hsp
    obtain ⟨e1, e2, e3⟩ := hsp
    have p1 := (convD_nonneg_spec k1).2.2.2
    have p2 := (convD_nonneg_spec k2).2.2.2
    have p3 := (convD_nonneg_spec k3).2.2.2
    rw [← e1, (convD_nonneg_spec h1).2.2.2] at p1
    rw [← e2, (convD_nonneg_spec h2).2.2.2] at p2
    rw [← e3, (convD_nonneg_spec h3).2.2.2] at p3
    have q1 := Option.some.inj p1
    have q2 := Option.some.inj p2
    have q3 := Option.some.inj p3
    obtain ⟨a, b, c⟩ := tm
    obtain ⟨a2, b2, c2⟩ := tm2
    simp only at h1 h2 h3 k1 k2 k3 q1 q2 q3
    have ea : a2 = a := by omega
    have eb : b2 = b := by omega
    have ec : c2 = c := by omega
    subst ea eb ec
    rfl

/-- Witness of C6 at the fields (9,5,3). -/
theorem rendered_line_round_trips_witness :
    InRange ⟨9, 5, 3⟩ ∧ ∃ line, vformat timeFormat [9, 5, 3] = some line ∧
      line.dropLast.count ':' = 2 := by
  have hr : InRange ⟨9, 5, 3⟩ := by decide
  obtain ⟨line, h1, -, h3, -⟩ := rendered_line_round_trips ⟨9, 5, 3⟩ hr
  exact ⟨hr, line, h1, h3⟩

/-- C7: the text an iteration adds to standard output is determined by the
fields its conversion yields: two iterations whose conversions yield the same
fields add the same text, whatever the hosts, the states they start in and the
output so far; and the outcome of an iteration does not depend on the values
`rawtime` and `pTime` hold when it starts. -/
theorem line_depends_only_on_fields (h1 h2 : Host) (s1 s2 : State) (tm : Tm)
    (hpc1 : s1.pc = Loc.whileTest) (hrun1 : s1.isRunning = true)
    (hpc2 : s2.pc = Loc.whileTest) (hrun2 : s2.isRunning = true)
    (hconv1 : fieldsOf h1 = some tm) (hconv2 : fieldsOf h2 = some tm) :
    (∃ t1 t2 text, iteration h1 s1 = Outcome.running t1 ∧ iteration h2 s2 = Outcome.running t2 ∧
      stdoutOf t1.trace = stdoutOf s1.trace ++ text ∧
      stdoutOf t2.trace = stdoutOf s2.trace ++ text) ∧
    ∀ (r : Int) (p : Option Tm),
      iteration h1 { s1 with rawtime := r, pTime := p } = iteration h1 s1 := by
  constructor
  · refine ⟨_, _, timeLine tm, iteration_some h1 s1 tm hpc1 hrun1 hconv1,
      iteration_some h2 s2 tm hpc2 hrun2 hconv2, ?_, ?_⟩ <;>
      simp [stdoutOf_append, passEffects, stdoutOf]
  · intro r p
    rw [iteration_some h1 s1 tm hpc1 hrun1 hconv1,
      iteration_some h1 { s1 with rawtime := r, pTime := p } tm hpc1 hrun1 hconv1]

/-- Witness of C7: two iterations at 9:05:03 on different days, the second one
after an earlier iteration. -/
theorem line_depends_only_on_fields_witness :
    ∃ t1 t2 text, iteration (utcHost (some 32703)) loopEntry = Outcome.running t1 ∧
      iteration (utcHost (some 119103))
        { loopEntry with rawtime := 119102, pTime := some ⟨9, 5, 2⟩ } = Outcome.running t2 ∧
      stdoutOf t1.trace = stdoutOf loopEntry.trace ++ text ∧
      stdoutOf t2.trace = stdoutOf loopEntry.trace ++ text :=
  (line_depends_only_on_fields (utcHost (some 32703)) (utcHost (some 119103)) loopEntry
    { loopEntry with rawtime := 119102, pTime := some ⟨9, 5, 2⟩ } ⟨9, 5, 3⟩
    rfl rfl rfl rfl (by decide) (by decide)).1

/-- C8: whenever executing statements of `main` from any state, under any
host, ends with `main` returning, the value returned is 0. -/
theorem main_returns_only_zero (h : Host) (n : Nat) (s : State) (c : Int)
    (hret : exec h n s = Outcome.returned c) : c = 0 :=
  exec_returned h n s c hret

/-- Witness of C8 from a state at the loop test in which `isRunning` is false:
the loop is left and `main` returns 0. -/
theorem main_returns_only_zero_witness :
    exec (utcHost none) 2 { loopEntry with isRunning := false } = Outcome.returned 0 ∧
      (0 : Int) = 0 :=
  ⟨by decide, main_returns_only_zero (utcHost none) 2 { loopEntry with isRunning := false } 0
    (by decide)⟩

/-- C9, as stated, fails: under a host whose clock fails and whose conversion
rejects the value -1 that `time` then stores, the iteration does not go on to
print anything; it ends in the null dereference of line 21. -/
theorem clock_failure_may_print_nothing :
    (strictHost none).clock = none ∧
      iteration (strictHost none) loopEntry = Outcome.undefined Undefined.nullDeref ∧
      ¬ ∃ s2, iteration (strictHost none) loopEntry = Outcome.running s2 := by
  refine ⟨rfl, by decide, ?_⟩
  rintro ⟨s2, hs2⟩
  have hu : iteration (strictHost none) loopEntry = Outcome.undefined Undefined.nullDeref := by
    decide
  rw [hu] at hs2
  cases hs2

/-- C9, amended: when the clock fails, the result of the call of `time` is not
inspected and nothing is reported: `rawtime` receives the value -1 that `time`
stores, control goes on to the call of `localtime` on that value, and the
whole iteration is the same as after a successful clock read that stored -1;
when the conversion of that value succeeds, the iteration prints the line of
its fields and pauses, as in any other iteration. -/
theorem clock_failure_is_ignored (h : Host) (s : State) (hpc : s.pc = Loc.whileTest)
    (hrun : s.isRunning = true) (hclock : h.clock = none) :
    exec h 2 s = Outcome.running
        { s with pc := Loc.callLocaltime, rawtime := -1,
                 trace := s.trace ++ [Effect.timeCall (-1)] } ∧
      exec h 3 s = Outcome.running
        { s with pc := Loc.printTime, rawtime := -1, pTime := h.localtime (-1),
                 trace := s.trace ++ [Effect.timeCall (-1), Effect.localtimeCall (-1)] } ∧
      iteration h s = iteration { h with clock := some (-1) } s ∧
      ∀ tm, h.localtime (-1) = some tm →
        ∃ s2, iteration h s = Outcome.running s2 ∧
          s2.trace = s.trace ++ [Effect.timeCall (-1), Effect.localtimeCall (-1),
            Effect.printfCall (lineOf tm).toList, Effect.sleepCall 1] := by
  obtain ⟨pc, rawtime, pTime, isRunning, trace⟩ := s
  obtain ⟨clock, localtime⟩ := h
  simp only at hpc hrun hclock
  subst hpc hrun hclock
  refine ⟨by simp [exec, step, time], by simp [exec, step, time],
    by simp [iteration, exec, step, time], ?_⟩
  intro tm htm
  have hconv : fieldsOf { clock := none, localtime := localtime } = some tm := by
    simpa [fieldsOf, time] using htm
  refine ⟨_, iteration_some _ _ tm rfl rfl hconv, ?_⟩
  simp only [passEffects, time, List.append_cancel_left_eq, List.cons.injEq, and_true,
    true_and, Effect.printfCall.injEq]
  exact (lineOf_toList tm).symm

/-- Witness of C9 as amended, under a host whose clock fails and whose
conversion accepts -1: the iteration prints the fields of one second before
1970. -/
theorem clock_failure_is_ignored_witness :
    (utcHost none).clock = none ∧
      ∃ s2, iteration (utcHost none) loopEntry = Outcome.running s2 ∧
        s2.trace = loopEntry.trace ++ [Effect.timeCall (-1), Effect.localtimeCall (-1),
          Effect.printfCall "23:59:59\n".toList, Effect.sleepCall 1] := by
  obtain ⟨s2, h1, h2⟩ := (clock_failure_is_ignored (utcHost none) loopEntry rfl rfl rfl).2.2.2
    ⟨23, 59, 59⟩ (by decide)
  exact ⟨rfl, s2, h1, h2.trans (by decide)⟩

/-- C10: in an iteration whose conversion succeeds, no statement has undefined
behaviour, and the iteration adds to the trace exactly four effects in this
order: one call of `time`, one call of `localtime` on the value that this call
of `time` stored, one `printf` whose text is the line of the fields that this
conversion yielded (hour, minute and second in decimal, separated by colons,
and a newline), and one call of `Sleep`. -/
theorem iteration_effects_in_order (h : Host) (s : State) (tm : Tm)
    (hpc : s.pc = Loc.whileTest) (hrun : s.isRunning = true) (hconv : fieldsOf h = some tm) :
    (∀ k, k ≤ 5 → ∀ u, exec h k s ≠ Outcome.undefined u) ∧
      h.localtime (time h) = some tm ∧
      vformat timeFormat [tm.tm_hour, tm.tm_min, tm.tm_sec] = some (lineOf tm).toList ∧
      ∃ s2, iteration h s = Outcome.running s2 ∧
        s2.trace = s.trace ++ [Effect.timeCall (time h), Effect.localtimeCall (time h),
          Effect.printfCall (lineOf tm).toList, Effect.sleepCall 1] := by
  refine ⟨?_, hconv, ?_, _, iteration_some h s tm hpc hrun hconv, ?_⟩
  · obtain ⟨pc, rawtime, pTime, isRunning, trace⟩ := s
    simp only at hpc hrun
    subst hpc hrun
    unfold fieldsOf at hconv
    intro k hk u
    interval_cases k <;> simp [exec, step, hconv, vformat_timeFormat]
  · rw [lineOf_toList]
    exact vformat_timeFormat tm
  · simp only [passEffects, List.append_cancel_left_eq, List.cons.injEq, and_true, true_and,
      Effect.printfCall.injEq]
    exact (lineOf_toList tm).symm

/-- Witness of C10 at 9:05:03 on entry to the loop. -/
theorem iteration_effects_in_order_witness :
    fieldsOf (utcHost (some 32703)) = some ⟨9, 5, 3⟩ ∧
      (∀ u, iteration (utcHost (some 32703)) loopEntry ≠ Outcome.undefined u) ∧
      ∃ s2, iteration (utcHost (some 32703)) loopEntry = Outcome.running s2 ∧
        s2.trace = loopEntry.trace ++ [Effect.timeCall 32703, Effect.localtimeCall 32703,
          Effect.printfCall "9:5:3\n".toList, Effect.sleepCall 1] := by
  have k := iteration_effects_in_order (utcHost (some 32703)) loopEntry ⟨9, 5, 3⟩
    rfl rfl (by decide)
  obtain ⟨s2, h1, h2⟩ := k.2.2.2
  exact ⟨by decide, fun u => k.1 5 (le_refl 5) u, s2, h1, h2.trans (by decide)⟩

end Clock
